import Mathlib

/-!
Verification of the manifest-aggregation core of `cargo-prefetch-dependencies`
(`src/main.rs`): extraction of (name, version) dependency pairs from TOML
manifests, merging into a deduplicated crate set, and materialization of a
synthetic Cargo project.
-/

set_option autoImplicit false

namespace Prefetch

/-! ## TOML value model

Shallow embedding of `toml::Value` as used by `src/main.rs`.  A table is an
association list of key/value entries.  Modelled from the spec: the table's
entry order is the declaration order of the source document (spec §3 and
§4.1 step 6: "order = declaration order in the source document", "preserving
table iteration order"); the external `toml` crate and the repository's
crate manifest that selects its features are not under `src/`. -/
inductive Value where
  | str (s : String)
  | int (n : Int)
  | boolean (b : Bool)
  | array (xs : List Value)
  | table (t : List (String × Value))

/-- Mirrors `toml::Value::is_str`. -/
def Value.is_str : Value → Bool
  | .str _ => true
  | _ => false

/-- Mirrors `toml::Value::as_str` (returns `Some` only on a string value). -/
def Value.as_str : Value → Option String
  | .str s => some s
  | _ => none

/-- Mirrors `toml::Value::as_table` (returns `Some` only on a table value). -/
def Value.as_table : Value → Option (List (String × Value))
  | .table t => some t
  | _ => none

/-- Mirrors `toml::map::Map::get`: look up a key in a table, first match wins. -/
def tget : List (String × Value) → String → Option Value
  | [], _ => none
  | (k, v) :: rest, key => if k = key then some v else tget rest key

/-! ## Outcome model

Rust results in `main.rs` live on three channels: a successful value
(`Ok`), a catchable `failure::Error` (`Err`, the `Fallible` channel), and a
process abort through `panic!` / `Option::unwrap` / `Result::unwrap`. -/
inductive Outcome (α : Type) where
  | ok (a : α)
  | err (e : String)
  | panic (msg : String)
deriving DecidableEq, Repr

/-- Tests whether an outcome is a catchable `Err` (as opposed to `Ok` or a panic). -/
def Outcome.isErr {α : Type} : Outcome α → Bool
  | .err _ => true
  | _ => false

/-- Sequencing of fallible steps: `Err` and panics short-circuit (`?` / early abort). -/
def Outcome.bind {α β : Type} : Outcome α → (α → Outcome β) → Outcome β
  | .ok a, f => f a
  | .err e, _ => .err e
  | .panic m, _ => .panic m

/-! ## Version-requirement grammar

Modelled from the spec: the version-requirement grammar is the external
`semver` crate's `VersionReq::parse` (spec §3 invariant and §4.1 step 5:
"ranges, caret/tilde/wildcard operators, exact pins, comparison operators");
the crate is a dependency, not part of `src/`.  The model parses a
comma-separated list of predicates, each being an optional comparison
operator followed by a (possibly wildcard) dotted version with optional
pre-release and build-metadata segments.  All character work is done on
`List Char` so that every function reduces by `decide`. -/

/-- Splits a character list at every occurrence of the separator. -/
def splitOnChar (c : Char) : List Char → List (List Char)
  | [] => [[]]
  | x :: xs =>
    match splitOnChar c xs with
    | [] => [[]]
    | r :: rs => if x = c then [] :: r :: rs else (x :: r) :: rs

/-- Splits a character list at the first occurrence of the separator, if any. -/
def splitFirstOn (c : Char) : List Char → List Char × Option (List Char)
  | [] => ([], none)
  | x :: xs =>
    if x = c then ([], some xs)
    else
      let r := splitFirstOn c xs
      (x :: r.1, r.2)

/-- Removes leading and trailing whitespace. -/
def trimChars (l : List Char) : List Char :=
  ((l.dropWhile Char.isWhitespace).reverse.dropWhile Char.isWhitespace).reverse

/-- Removes a leading comparison/range operator (`>=`, `<=`, `=`, `>`, `<`, `~`, `^`). -/
def stripOp : List Char → List Char
  | '>' :: '=' :: rest => rest
  | '<' :: '=' :: rest => rest
  | '=' :: rest => rest
  | '>' :: rest => rest
  | '<' :: rest => rest
  | '~' :: rest => rest
  | '^' :: rest => rest
  | l => l

/-- Recognizes a nonempty all-digit component. -/
def numericOk (l : List Char) : Bool :=
  !l.isEmpty && l.all Char.isDigit

/-- Recognizes a wildcard component (`*`, `x`, `X`). -/
def wildcardOk (l : List Char) : Bool :=
  l = ['*'] || l = ['x'] || l = ['X']

/-- Recognizes one dotted component of the version core. -/
def componentOk (l : List Char) : Bool :=
  numericOk l || wildcardOk l

/-- Recognizes the dotted version core: one to three components. -/
def coreOk (l : List Char) : Bool :=
  match splitOnChar '.' l with
  | [a] => componentOk a
  | [a, b] => componentOk a && componentOk b
  | [a, b, c] => componentOk a && componentOk b && componentOk c
  | _ => false

/-- Recognizes one identifier of a pre-release or build-metadata segment. -/
def identOk (l : List Char) : Bool :=
  !l.isEmpty && l.all fun c => c.isAlphanum || c = '-'

/-- Recognizes an optional dot-separated identifier segment. -/
def segmentOk : Option (List Char) → Bool
  | none => true
  | some l => (splitOnChar '.' l).all identOk

/-- Recognizes a full version part: core, optional `-pre`, optional `+build`. -/
def versionPartOk (l : List Char) : Bool :=
  let (beforeBuild, build) := splitFirstOn '+' l
  let (core, pre) := splitFirstOn '-' beforeBuild
  coreOk core && segmentOk pre && segmentOk build

/-- Recognizes one comma-separated predicate of a requirement. -/
def predicateOk (l : List Char) : Bool :=
  versionPartOk (trimChars (stripOp (trimChars l)))

/-- Mirrors `semver::VersionReq::parse(s).is_ok()` (see the module note above). -/
def versionReqValid (s : String) : Bool :=
  (splitOnChar ',' s.data).all predicateOk

/-! ## Dependency extraction (`transform_dependencies`, `main.rs` lines 116-139) -/

/-- Mirrors the `Package` struct of `main.rs`. -/
structure Package where
  name : String
  version : String
deriving DecidableEq, Repr

/-- Mirrors the `PackageDependencies` struct of `main.rs`. -/
structure PackageDependencies where
  dev_dependencies : List Package
  dependencies : List Package
deriving DecidableEq, Repr

/-- Version-string resolution for one dependency entry (`main.rs` lines 120-126):
a plain string is the version; otherwise `as_table().unwrap()` then
`get("version").unwrap()` then the trailing `as_str()...unwrap()`, each
`unwrap` aborting with a panic. -/
def getVersionStr (val : Value) : Outcome String :=
  if val.is_str then
    match val.as_str with
    | some s => .ok s
    | none => .panic "called `Option::unwrap()` on a `None` value (as_str)"
  else
    match val.as_table with
    | none => .panic "called `Option::unwrap()` on a `None` value (as_table)"
    | some value =>
      match tget value "version" with
      | none => .panic "called `Option::unwrap()` on a `None` value (version key)"
      | some w =>
        match w.as_str with
        | some s => .ok s
        | none => .panic "called `Option::unwrap()` on a `None` value (as_str)"

/-- Mirrors `transform_dependencies` (`main.rs` lines 116-139): iterate the
table in order, resolve each entry's version string (aborting on a
malformed entry), and keep the entry only when the version string parses
as a version requirement. -/
def transform_dependencies : List (String × Value) → Outcome (List Package)
  | [] => .ok []
  | (key, val) :: rest =>
    match getVersionStr val with
    | .panic m => .panic m
    | .err e => .err e
    | .ok version =>
      match transform_dependencies rest with
      | .panic m => .panic m
      | .err e => .err e
      | .ok result =>
        if versionReqValid version then
          .ok ({ name := key, version := version } :: result)
        else
          .ok result

/-! ## Manifest extraction (`manifest_dependencies`, `main.rs` lines 142-173)

The filesystem read and the TOML parse are performed by external
collaborators (`std::fs`, the `toml` crate); their outcome on the given
path is the input of the embedded function. -/
inductive ManifestInput where
  /-- Corresponds to `std::fs::read_to_string` failing with the given error message. -/
  | readError (msg : String)
  /-- Corresponds to file content that the TOML grammar rejects. -/
  | parseError
  /-- Corresponds to the file content parsing to the given top-level table. -/
  | parsed (data : List (String × Value))

/-- Processing of one optional top-level dependency table of the manifest
(`main.rs` lines 153-167): an absent table yields the empty list, a
present non-table value aborts on `as_table().unwrap()`. -/
def tableOut (data : List (String × Value)) (key : String) : Outcome (List Package) :=
  match tget data key with
  | none => .ok []
  | some v =>
    match v.as_table with
    | none => .panic "called `Option::unwrap()` on a `None` value (top-level as_table)"
    | some deps => transform_dependencies deps

/-- Mirrors `manifest_dependencies` (`main.rs` lines 142-173): a failed read
aborts via `panic!("{}", e)`, unparseable content aborts via
`.parse().unwrap()`, then the `"dependencies"` and `"dev-dependencies"`
tables are transformed in that order. -/
def manifest_dependencies : ManifestInput → Outcome PackageDependencies
  | .readError msg => .panic msg
  | .parseError => .panic "TOML parse error"
  | .parsed data =>
    (tableOut data "dependencies").bind fun dependencies =>
    (tableOut data "dev-dependencies").bind fun dev_dependencies =>
    .ok { dev_dependencies := dev_dependencies, dependencies := dependencies }

/-! ## Aggregation (`run`, `main.rs` lines 61-75)

The `CrateSet` of `main.rs` is `HashSet<(String, String)>`; it is embedded
as a duplicate-free list whose order carries no meaning (hash-set iteration
order is unspecified), with guarded insertion. -/

abbrev CrateSet := List (String × String)

/-- Mirrors `HashSet::insert`: a pair already present leaves the set unchanged. -/
def insertCrate (crates : CrateSet) (p : String × String) : CrateSet :=
  if p ∈ crates then crates else crates ++ [p]

/-- Mirrors the `for dep in ... { crates.insert((dep.name, dep.version)) }` loops
of `main.rs` lines 66-71. -/
def insertAll (crates : CrateSet) (deps : List Package) : CrateSet :=
  deps.foldl (fun acc dep => insertCrate acc (dep.name, dep.version)) crates

/-- Merging of one extraction result into the aggregate set: first the regular
dependencies, then the development dependencies (`main.rs` lines 66-71). -/
def mergeResult (crates : CrateSet) (result : PackageDependencies) : CrateSet :=
  insertAll (insertAll crates result.dependencies) result.dev_dependencies

/-- Mirrors the manifest loop of `run` (`main.rs` lines 63-72): each manifest is
extracted (`.unwrap()` at line 64 turns a catchable `Err` into a panic, and a
panic inside extraction aborts directly), and its pairs are merged. -/
def runAggregate : List ManifestInput → CrateSet → Outcome CrateSet
  | [], crates => .ok crates
  | m :: rest, crates =>
    match manifest_dependencies m with
    | .panic msg => .panic msg
    | .err e => .panic e
    | .ok result => runAggregate rest (mergeResult crates result)

/-! ## Materialization (`make_project`, `main.rs` lines 78-102) -/

/-- Mirrors the `TEMP_PROJ_NAME` constant of `main.rs` line 10. -/
def TEMP_PROJ_NAME : String := "temp_prefetch_project"

/-- Rendering of one crate-set entry (`main.rs` lines 79-82). -/
def render_dep (p : String × String) : String :=
  "\"" ++ p.1 ++ "\" = \"" ++ p.2 ++ "\"\n"

/-- Content of the written `Cargo.toml` (`main.rs` lines 84-98): the raw format
string with `TEMP_PROJ_NAME` and the joined dependency lines substituted. -/
def make_project_manifest (crates : CrateSet) : String :=
  "\n            [package]\n            name = \"" ++ TEMP_PROJ_NAME ++
    "\"\n            version = \"0.0.0\"\n\n            [dependencies]\n            " ++
    String.join (crates.map render_dep) ++ "\n            "

/-- Files written by `make_project`: `Cargo.toml` and the empty `src/lib.rs`
(`main.rs` lines 84-100); the filesystem itself is an external collaborator,
so the embedding returns the written content. -/
structure ProjectFiles where
  cargoToml : String
  srcLibRs : String
deriving DecidableEq, Repr

/-- Mirrors `make_project` (`main.rs` lines 78-102) up to the external
filesystem: the content it writes on the success path. -/
def make_project (crates : CrateSet) : ProjectFiles :=
  { cargoToml := make_project_manifest crates, srcLibRs := "" }

/-- Mirrors the tail of `run` (`main.rs` lines 61-75): aggregate all manifests,
then materialize; a panic during aggregation aborts before anything is
written. -/
def run (inputs : List ManifestInput) : Outcome ProjectFiles :=
  match runAggregate inputs [] with
  | .panic m => .panic m
  | .err e => .err e
  | .ok crates => .ok (make_project crates)

/-! ## Specification-side definitions used for comparison -/

/-- Tests whether one dependency entry's version string resolves without
aborting (the complement of the unwrap-panics of `main.rs` lines 120-126). -/
def entryOk (val : Value) : Bool :=
  match getVersionStr val with
  | .ok _ => true
  | _ => false

/-- Decision for one entry: the `Package` it contributes when its version
string resolves and passes the requirement grammar, `none` otherwise. -/
def keepEntry (x : String × Value) : Option Package :=
  match getVersionStr x.2 with
  | .ok v => if versionReqValid v then some { name := x.1, version := v } else none
  | _ => none

/-- Stated from the spec (§4.1 step 6): the surviving entries of a dependency
table, in declaration order — every entry whose version string resolves and
passes the requirement grammar, as a `Package`. -/
def survivors (deps : List (String × Value)) : List Package :=
  deps.filterMap keepEntry

/-- Modelled from the spec: the structured document denoted by the manifest
text that `make_project` writes (spec §6 output format — a `[package]` table
with the fixed name and version `0.0.0`, and a `[dependencies]` table with
one `"<name>" = "<version>"` entry per crate-set element).  The external
TOML parser that would re-read the written file is not part of `src/`. -/
def make_project_doc (crates : CrateSet) : List (String × Value) :=
  [("package", .table [("name", .str TEMP_PROJ_NAME), ("version", .str "0.0.0")]),
   ("dependencies", .table (crates.map fun p => (p.1, Value.str p.2)))]

/-! ## Helper lemmas: extraction -/

theorem getVersionStr_not_err (val : Value) (e : String) : getVersionStr val ≠ .err e := by
  unfold getVersionStr
  split <;> (repeat' split) <;> simp

theorem entryOk_ok (val : Value) (h : entryOk val = true) : ∃ s, getVersionStr val = .ok s := by
  unfold entryOk at h
  cases hg : getVersionStr val
  · exact ⟨_, rfl⟩
  · rw [hg] at h; simp at h
  · rw [hg] at h; simp at h

theorem entryOk_bad (val : Value) (h : entryOk val = false) : ∃ m, getVersionStr val = .panic m := by
  unfold entryOk at h
  cases hg : getVersionStr val
  · rw [hg] at h; simp at h
  · exact absurd hg (getVersionStr_not_err val _)
  · exact ⟨_, rfl⟩

theorem keepEntry_of_ok (x : String × Value) (v : String) (h : getVersionStr x.2 = .ok v) :
    keepEntry x = if versionReqValid v then some { name := x.1, version := v } else none := by
  unfold keepEntry
  rw [h]

theorem keepEntry_of_panic (x : String × Value) (m : String) (h : getVersionStr x.2 = .panic m) :
    keepEntry x = none := by
  unfold keepEntry
  rw [h]

theorem transform_not_err (deps : List (String × Value)) : ∀ e, transform_dependencies deps ≠ .err e := by
  induction deps with
  | nil => intro e; simp [transform_dependencies]
  | cons hd tl ih =>
    intro e
    simp only [transform_dependencies]
    cases hg : getVersionStr hd.2 with
    | ok s =>
      cases ht : transform_dependencies tl with
      | ok tlRes => by_cases hv : versionReqValid s = true <;> simp [hv]
      | err e2 => exact absurd ht (ih e2)
      | panic m => simp
    | err e2 => exact absurd hg (getVersionStr_not_err hd.2 e2)
    | panic m => simp

theorem transform_eq_survivors (deps : List (String × Value))
    (h : deps.all (fun x => entryOk x.2) = true) :
    transform_dependencies deps = .ok (survivors deps) := by
  induction deps with
  | nil => rfl
  | cons hd tl ih =>
    simp only [List.all_cons, Bool.and_eq_true] at h
    obtain ⟨s, hs⟩ := entryOk_ok hd.2 h.1
    simp only [transform_dependencies, survivors, List.filterMap_cons]
    rw [hs, ih h.2, keepEntry_of_ok hd s hs]
    by_cases hv : versionReqValid s = true
    · simp [hv, survivors]
    · simp at hv
      simp [hv, survivors]

theorem transform_ok_inv (deps : List (String × Value)) (res : List Package)
    (h : transform_dependencies deps = .ok res) :
    deps.all (fun x => entryOk x.2) = true ∧ res = survivors deps := by
  induction deps generalizing res with
  | nil =>
    simp only [transform_dependencies] at h
    cases h
    exact ⟨rfl, rfl⟩
  | cons hd tl ih =>
    simp only [transform_dependencies] at h
    cases hg : getVersionStr hd.2 with
    | ok s =>
      rw [hg] at h
      cases ht : transform_dependencies tl with
      | ok tlRes =>
        rw [ht] at h
        obtain ⟨hall, hsurv⟩ := ih tlRes ht
        have hok : entryOk hd.2 = true := by unfold entryOk; rw [hg]
        refine ⟨by simp [List.all_cons, hok, hall], ?_⟩
        simp only [survivors, List.filterMap_cons, keepEntry_of_ok hd s hg]
        by_cases hv : versionReqValid s = true
        · simp [hv] at h
          subst h
          simp [hv, hsurv, survivors]
        · rw [Bool.not_eq_true] at hv
          simp [hv] at h
          subst h
          simp [hv, hsurv, survivors]
      | err e => exact absurd ht (transform_not_err tl e)
      | panic m => rw [ht] at h; cases h
    | err e => exact absurd hg (getVersionStr_not_err hd.2 e)
    | panic m => rw [hg] at h; cases h

theorem mem_survivors_valid (deps : List (String × Value)) (p : Package)
    (h : p ∈ survivors deps) : versionReqValid p.version = true := by
  simp only [survivors, List.mem_filterMap] at h
  obtain ⟨x, hx, hfx⟩ := h
  cases hg : getVersionStr x.2 with
  | ok s =>
    rw [keepEntry_of_ok x s hg] at hfx
    by_cases hv : versionReqValid s = true
    · rw [if_pos hv] at hfx
      obtain rfl : { name := x.1, version := s : Package } = p := by injection hfx
      exact hv
    · rw [if_neg hv] at hfx
      cases hfx
  | err e => exact absurd hg (getVersionStr_not_err x.2 e)
  | panic m =>
    rw [keepEntry_of_panic x m hg] at hfx
    cases hfx

theorem transform_panic_of_bad (deps : List (String × Value))
    (h : ∃ x ∈ deps, entryOk x.2 = false) :
    ∃ m, transform_dependencies deps = .panic m := by
  induction deps with
  | nil => simp at h
  | cons hd tl ih =>
    simp only [List.mem_cons] at h
    obtain ⟨x, hx, hbad⟩ := h
    simp only [transform_dependencies]
    rcases hx with rfl | hx
    · obtain ⟨m, hm⟩ := entryOk_bad x.2 hbad
      rw [hm]
      exact ⟨m, rfl⟩
    · cases hg : getVersionStr hd.2 with
      | ok s =>
        obtain ⟨m, hm⟩ := ih ⟨x, hx, hbad⟩
        rw [hm]
        exact ⟨m, rfl⟩
      | err e => exact absurd hg (getVersionStr_not_err hd.2 e)
      | panic m => exact ⟨m, rfl⟩

/-! ## Helper lemmas: crate-set merging and the run loop -/

theorem mem_insertCrate (crates : CrateSet) (p q : String × String) :
    q ∈ insertCrate crates p ↔ q ∈ crates ∨ q = p := by
  unfold insertCrate
  by_cases hp : p ∈ crates
  · rw [if_pos hp]
    constructor
    · exact Or.inl
    · rintro (h | rfl)
      · exact h
      · exact hp
  · rw [if_neg hp]
    simp

theorem insertCrate_nodup (crates : CrateSet) (p : String × String) (h : crates.Nodup) :
    (insertCrate crates p).Nodup := by
  unfold insertCrate
  split
  · exact h
  · rename_i hp
    simp [List.nodup_append, h, hp]

theorem insertCrate_of_mem (crates : CrateSet) (p : String × String) (h : p ∈ crates) :
    insertCrate crates p = crates := by
  unfold insertCrate
  rw [if_pos h]

theorem mem_insertAll (deps : List Package) :
    ∀ (crates : CrateSet) (q : String × String),
      q ∈ insertAll crates deps ↔ q ∈ crates ∨ ∃ d ∈ deps, (d.name, d.version) = q := by
  induction deps with
  | nil => intro crates q; simp [insertAll]
  | cons hd tl ih =>
    intro crates q
    simp only [insertAll, List.foldl_cons] at *
    rw [ih, mem_insertCrate]
    simp only [List.mem_cons]
    constructor
    · rintro ((h | rfl) | ⟨d, hd2, rfl⟩)
      · exact Or.inl h
      · exact Or.inr ⟨hd, Or.inl rfl, rfl⟩
      · exact Or.inr ⟨d, Or.inr hd2, rfl⟩
    · rintro (h | ⟨d, (rfl | hd2), rfl⟩)
      · exact Or.inl (Or.inl h)
      · exact Or.inl (Or.inr rfl)
      · exact Or.inr ⟨d, hd2, rfl⟩

theorem insertAll_nodup (deps : List Package) :
    ∀ crates : CrateSet, crates.Nodup → (insertAll crates deps).Nodup := by
  induction deps with
  | nil => intro crates h; exact h
  | cons hd tl ih =>
    intro crates h
    simp only [insertAll, List.foldl_cons]
    exact ih _ (insertCrate_nodup _ _ h)

theorem insertAll_of_mem (deps : List Package) :
    ∀ crates : CrateSet, (∀ d ∈ deps, (d.name, d.version) ∈ crates) →
      insertAll crates deps = crates := by
  induction deps with
  | nil => intro crates _; rfl
  | cons hd tl ih =>
    intro crates h
    simp only [insertAll, List.foldl_cons]
    rw [insertCrate_of_mem _ _ (h hd (List.mem_cons_self hd tl))]
    exact ih crates fun d hd2 => h d (List.mem_cons_of_mem hd hd2)

theorem mem_mergeResult (crates : CrateSet) (r : PackageDependencies) (q : String × String) :
    q ∈ mergeResult crates r ↔
      q ∈ crates ∨ (∃ d ∈ r.dependencies, (d.name, d.version) = q) ∨
        (∃ d ∈ r.dev_dependencies, (d.name, d.version) = q) := by
  unfold mergeResult
  rw [mem_insertAll, mem_insertAll]
  rw [or_assoc]

theorem mergeResult_nodup (crates : CrateSet) (r : PackageDependencies) (h : crates.Nodup) :
    (mergeResult crates r).Nodup :=
  insertAll_nodup _ _ (insertAll_nodup _ _ h)

theorem mergeResult_of_mem (crates : CrateSet) (r : PackageDependencies)
    (h1 : ∀ d ∈ r.dependencies, (d.name, d.version) ∈ crates)
    (h2 : ∀ d ∈ r.dev_dependencies, (d.name, d.version) ∈ crates) :
    mergeResult crates r = crates := by
  unfold mergeResult
  rw [insertAll_of_mem _ _ h1]
  exact insertAll_of_mem _ _ h2

theorem mergeResult_idem (crates : CrateSet) (r : PackageDependencies) :
    mergeResult (mergeResult crates r) r = mergeResult crates r := by
  apply mergeResult_of_mem
  · intro d hd
    rw [mem_mergeResult]
    exact Or.inr (Or.inl ⟨d, hd, rfl⟩)
  · intro d hd
    rw [mem_mergeResult]
    exact Or.inr (Or.inr ⟨d, hd, rfl⟩)

theorem tableOut_not_err (data : List (String × Value)) (key : String) (e : String) :
    tableOut data key ≠ .err e := by
  unfold tableOut
  cases tget data key with
  | none => simp
  | some v =>
    cases hv : v.as_table with
    | none => simp [hv]
    | some deps =>
      simp only [hv]
      exact transform_not_err deps e

theorem tableOut_absent (data : List (String × Value)) (key : String)
    (h : tget data key = none) : tableOut data key = .ok [] := by
  unfold tableOut
  rw [h]

theorem tableOut_table (data : List (String × Value)) (key : String)
    (deps : List (String × Value)) (h : tget data key = some (.table deps)) :
    tableOut data key = transform_dependencies deps := by
  unfold tableOut
  rw [h]
  rfl

theorem tableOut_ok_valid (data : List (String × Value)) (key : String) (res : List Package)
    (h : tableOut data key = .ok res) : ∀ p ∈ res, versionReqValid p.version = true := by
  unfold tableOut at h
  cases htg : tget data key with
  | none =>
    rw [htg] at h
    simp at h
    subst h
    simp
  | some v =>
    rw [htg] at h
    cases hv : v.as_table with
    | none => simp [hv] at h
    | some deps =>
      simp only [hv] at h
      obtain ⟨_, hs⟩ := transform_ok_inv deps res h
      subst hs
      intro p hp
      exact mem_survivors_valid deps p hp

theorem manifest_ok_inv (data : List (String × Value)) (r : PackageDependencies)
    (h : manifest_dependencies (.parsed data) = .ok r) :
    tableOut data "dependencies" = .ok r.dependencies ∧
      tableOut data "dev-dependencies" = .ok r.dev_dependencies := by
  simp only [manifest_dependencies] at h
  cases h1 : tableOut data "dependencies" with
  | ok deps =>
    rw [h1] at h
    simp only [Outcome.bind] at h
    cases h2 : tableOut data "dev-dependencies" with
    | ok dev =>
      rw [h2] at h
      simp only [Outcome.bind] at h
      cases h
      refine ⟨?_, ?_⟩ <;> simp [h1, h2]
    | err e => exact absurd h2 (tableOut_not_err data _ e)
    | panic m =>
      rw [h2] at h
      simp only [Outcome.bind] at h
      cases h
  | err e => exact absurd h1 (tableOut_not_err data _ e)
  | panic m =>
    rw [h1] at h
    simp only [Outcome.bind] at h
    cases h

theorem manifest_parsed_panic (data deps : List (String × Value))
    (hwhere : tget data "dependencies" = some (.table deps) ∨
      tget data "dev-dependencies" = some (.table deps))
    (hpanic : ∃ m, transform_dependencies deps = .panic m) :
    ∃ m, manifest_dependencies (.parsed data) = .panic m := by
  obtain ⟨m0, hm0⟩ := hpanic
  simp only [manifest_dependencies]
  rcases hwhere with ht | ht
  · rw [tableOut_table data _ deps ht, hm0]
    exact ⟨m0, rfl⟩
  · cases h1 : tableOut data "dependencies" with
    | ok deps1 =>
      simp only [Outcome.bind]
      rw [tableOut_table data _ deps ht, hm0]
      exact ⟨m0, rfl⟩
    | err e => exact absurd h1 (tableOut_not_err data _ e)
    | panic m => exact ⟨m, rfl⟩

theorem manifest_ok_valid (input : ManifestInput) (r : PackageDependencies)
    (h : manifest_dependencies input = .ok r) :
    (∀ p ∈ r.dependencies, versionReqValid p.version = true) ∧
      (∀ p ∈ r.dev_dependencies, versionReqValid p.version = true) := by
  cases input with
  | readError msg => cases h
  | parseError => cases h
  | parsed data =>
    obtain ⟨h1, h2⟩ := manifest_ok_inv data r h
    exact ⟨tableOut_ok_valid _ _ _ h1, tableOut_ok_valid _ _ _ h2⟩

theorem mergeResult_valid (crates : CrateSet) (r : PackageDependencies)
    (hc : ∀ p ∈ crates, versionReqValid p.2 = true)
    (h1 : ∀ p ∈ r.dependencies, versionReqValid p.version = true)
    (h2 : ∀ p ∈ r.dev_dependencies, versionReqValid p.version = true) :
    ∀ p ∈ mergeResult crates r, versionReqValid p.2 = true := by
  intro p hp
  rw [mem_mergeResult] at hp
  rcases hp with hp | ⟨d, hd, rfl⟩ | ⟨d, hd, rfl⟩
  · exact hc p hp
  · exact h1 d hd
  · exact h2 d hd

theorem runAggregate_panic_of_mem (inputs : List ManifestInput) (input : ManifestInput)
    (hp : ∃ m, manifest_dependencies input = .panic m) :
    ∀ acc : CrateSet, input ∈ inputs → ∃ m, runAggregate inputs acc = .panic m := by
  induction inputs with
  | nil =>
    intro acc hin
    simp at hin
  | cons hd tl ih =>
    intro acc hin
    rcases List.mem_cons.mp hin with rfl | hin
    · obtain ⟨m, hm⟩ := hp
      exact ⟨m, by simp only [runAggregate]; rw [hm]⟩
    · cases hmd : manifest_dependencies hd with
      | ok r =>
        obtain ⟨m, hm⟩ := ih (mergeResult acc r) hin
        exact ⟨m, by simp only [runAggregate]; rw [hmd]; exact hm⟩
      | err e => exact ⟨e, by simp only [runAggregate]; rw [hmd]⟩
      | panic m => exact ⟨m, by simp only [runAggregate]; rw [hmd]⟩

theorem runAggregate_nodup (inputs : List ManifestInput) :
    ∀ acc : CrateSet, acc.Nodup → ∀ s, runAggregate inputs acc = .ok s → s.Nodup := by
  induction inputs with
  | nil =>
    intro acc h s hs
    simp only [runAggregate] at hs
    cases hs
    exact h
  | cons hd tl ih =>
    intro acc h s hs
    simp only [runAggregate] at hs
    cases hmd : manifest_dependencies hd with
    | ok r =>
      rw [hmd] at hs
      exact ih _ (mergeResult_nodup _ _ h) s hs
    | err e => rw [hmd] at hs; cases hs
    | panic m => rw [hmd] at hs; cases hs

theorem runAggregate_valid (inputs : List ManifestInput) :
    ∀ acc : CrateSet, (∀ p ∈ acc, versionReqValid p.2 = true) →
      ∀ s, runAggregate inputs acc = .ok s → ∀ p ∈ s, versionReqValid p.2 = true := by
  induction inputs with
  | nil =>
    intro acc h s hs
    simp only [runAggregate] at hs
    cases hs
    exact h
  | cons hd tl ih =>
    intro acc h s hs
    simp only [runAggregate] at hs
    cases hmd : manifest_dependencies hd with
    | ok r =>
      rw [hmd] at hs
      obtain ⟨h1, h2⟩ := manifest_ok_valid hd r hmd
      exact ih _ (mergeResult_valid acc r h h1 h2) s hs
    | err e => rw [hmd] at hs; cases hs
    | panic m => rw [hmd] at hs; cases hs

theorem runAggregate_pair (a b : ManifestInput) (r1 r2 : PackageDependencies)
    (hA : manifest_dependencies a = .ok r1) (hB : manifest_dependencies b = .ok r2) :
    runAggregate [a, b] [] = .ok (mergeResult (mergeResult [] r1) r2) := by
  simp only [runAggregate, hA, hB]

/-! ## Claims -/

theorem getVersionStr_panic_of_bad (val : Value)
    (hbad : (∃ t, val = Value.table t ∧ tget t "version" = none) ∨
      (val.as_str = none ∧ val.as_table = none)) :
    ∃ m, getVersionStr val = .panic m := by
  rcases hbad with ⟨t, rfl, hver⟩ | ⟨hstr, htab⟩
  · unfold getVersionStr
    simp only [Value.is_str, Bool.false_eq_true, if_false, Value.as_table]
    rw [hver]
    exact ⟨_, rfl⟩
  · cases val with
    | str s => simp [Value.as_str] at hstr
    | table t => simp [Value.as_table] at htab
    | int n => exact ⟨_, rfl⟩
    | boolean b => exact ⟨_, rfl⟩
    | array xs => exact ⟨_, rfl⟩

theorem entryOk_false_of_panic (val : Value) (hp : ∃ m, getVersionStr val = .panic m) :
    entryOk val = false := by
  obtain ⟨m, hm⟩ := hp
  unfold entryOk
  rw [hm]

/-- C3: a dependency entry whose value is a table lacking a `"version"` key, or
whose value is neither a string nor a table, makes extraction abort with the
hard unwrap panic (the `MissingVersionError`-style failure) instead of being
silently skipped, and a run over manifests containing such an entry aborts
with no output produced. -/
theorem missing_version_hard_abort (inputs : List ManifestInput)
    (data deps : List (String × Value)) (k : String) (val : Value)
    (hin : ManifestInput.parsed data ∈ inputs)
    (htab : tget data "dependencies" = some (.table deps) ∨
      tget data "dev-dependencies" = some (.table deps))
    (hmem : (k, val) ∈ deps)
    (hbad : (∃ t, val = Value.table t ∧ tget t "version" = none) ∨
      (val.as_str = none ∧ val.as_table = none)) :
    (∃ m, manifest_dependencies (.parsed data) = .panic m) ∧
      ∃ m, run inputs = .panic m := by
  have hek : entryOk val = false :=
    entryOk_false_of_panic val (getVersionStr_panic_of_bad val hbad)
  have htr : ∃ m, transform_dependencies deps = .panic m :=
    transform_panic_of_bad deps ⟨(k, val), hmem, hek⟩
  have hmani := manifest_parsed_panic data deps htab htr
  refine ⟨hmani, ?_⟩
  obtain ⟨m, hm⟩ := runAggregate_panic_of_mem inputs _ hmani [] hin
  exact ⟨m, by unfold run; rw [hm]⟩

/-- C3 witness: spec scenario 2, `dependencies.foo = {path = "../foo"}`. -/
theorem missing_version_hard_abort_witness :
    (∃ m, manifest_dependencies (.parsed [("dependencies",
        Value.table [("foo", Value.table [("path", Value.str "../foo")])])]) = .panic m) ∧
      ∃ m, run [ManifestInput.parsed [("dependencies",
        Value.table [("foo", Value.table [("path", Value.str "../foo")])])]] = .panic m :=
  missing_version_hard_abort _ _ _ "foo" (Value.table [("path", Value.str "../foo")])
    (by simp) (Or.inl rfl) (by simp)
    (Or.inl ⟨[("path", Value.str "../foo")], rfl, rfl⟩)

/-- C10: a dependency entry whose value is a table that does contain a
`"version"` key whose value is not a string aborts extraction with the unwrap
panic, rather than being skipped or falling into the silent invalid-version
filter. -/
theorem nonstring_version_value_aborts (deps : List (String × Value)) (k : String)
    (t : List (String × Value)) (w : Value)
    (hmem : (k, Value.table t) ∈ deps)
    (hver : tget t "version" = some w)
    (hnostr : w.as_str = none) :
    ∃ m, transform_dependencies deps = .panic m := by
  have hg : ∃ m, getVersionStr (Value.table t) = .panic m := by
    refine ⟨"called `Option::unwrap()` on a `None` value (as_str)", ?_⟩
    unfold getVersionStr
    simp only [Value.is_str, Bool.false_eq_true, if_false, Value.as_table]
    rw [hver]
    cases w with
    | str s => simp [Value.as_str] at hnostr
    | int n => rfl
    | boolean b => rfl
    | array xs => rfl
    | table t2 => rfl
  exact transform_panic_of_bad deps ⟨(k, Value.table t), hmem, entryOk_false_of_panic _ hg⟩

/-- C10 witness: `foo = {version = 1}` (an integer version value). -/
theorem nonstring_version_value_aborts_witness :
    ∃ m, transform_dependencies [("foo", Value.table [("version", Value.int 1)])] = .panic m :=
  nonstring_version_value_aborts _ "foo" [("version", Value.int 1)] (Value.int 1)
    (by simp) rfl rfl

/-- C4: an entry whose version string fails the version-requirement grammar is
absent from the extraction result, and extraction does not abort because of
it: when every entry resolves a version string, the result is the ordered
survivor list, and no package with an invalid version is in it. -/
theorem invalid_version_silently_filtered (deps : List (String × Value)) (k : String)
    (val : Value) (v : String)
    (hall : deps.all (fun x => entryOk x.2) = true)
    (_hmem : (k, val) ∈ deps)
    (_hv : getVersionStr val = .ok v)
    (hinvalid : versionReqValid v = false) :
    transform_dependencies deps = .ok (survivors deps) ∧
      ({ name := k, version := v } : Package) ∉ survivors deps := by
  refine ⟨transform_eq_survivors deps hall, ?_⟩
  intro hmem2
  have hval := mem_survivors_valid deps _ hmem2
  rw [show ({ name := k, version := v } : Package).version = v from rfl, hinvalid] at hval
  cases hval

/-- C4 witness: spec scenario 3, `dependencies.bar = "not-a-version"`. -/
theorem invalid_version_silently_filtered_witness :
    transform_dependencies [("bar", Value.str "not-a-version")] =
        .ok (survivors [("bar", Value.str "not-a-version")]) ∧
      ({ name := "bar", version := "not-a-version" } : Package) ∉
        survivors [("bar", Value.str "not-a-version")] :=
  invalid_version_silently_filtered _ "bar" (Value.str "not-a-version") "not-a-version"
    (by decide) (by simp) rfl (by decide)

/-- C5: an entry `N = "V"` with `V` a valid requirement yields exactly one
`Package` with name `N` and version `V`; an entry whose value is a table
containing `version = "V"` besides arbitrary other keys yields exactly the
same single `Package`, the other keys being ignored. -/
theorem entry_shapes_extraction (n v : String) (t rest : List (String × Value))
    (restRes : List Package)
    (hvalid : versionReqValid v = true)
    (hver : tget t "version" = some (.str v))
    (hrest : transform_dependencies rest = .ok restRes) :
    transform_dependencies ((n, .str v) :: rest) =
        .ok ({ name := n, version := v } :: restRes) ∧
      transform_dependencies ((n, .table t) :: rest) =
        .ok ({ name := n, version := v } :: restRes) := by
  constructor
  · simp [transform_dependencies, getVersionStr, Value.is_str, Value.as_str, hrest, hvalid]
  · simp [transform_dependencies, getVersionStr, Value.is_str, Value.as_table, Value.as_str,
      hver, hrest, hvalid]

/-- C5 witness: `serde = "1.0"` and `serde = {version = "1.0", optional = true}`. -/
theorem entry_shapes_extraction_witness :
    transform_dependencies [("serde", .str "1.0")] =
        .ok [{ name := "serde", version := "1.0" }] ∧
      transform_dependencies
          [("serde", .table [("version", Value.str "1.0"), ("optional", Value.boolean true)])] =
        .ok [{ name := "serde", version := "1.0" }] :=
  entry_shapes_extraction "serde" "1.0"
    [("version", Value.str "1.0"), ("optional", Value.boolean true)] [] []
    (by decide) rfl rfl

/-- C9: on a successful extraction, the `dependencies` and `dev_dependencies`
lists are exactly the surviving entries of the corresponding tables in the
order the entries appear in the document's table. -/
theorem extraction_preserves_declaration_order (data : List (String × Value))
    (res : PackageDependencies)
    (h : manifest_dependencies (.parsed data) = .ok res) :
    (∀ deps, tget data "dependencies" = some (.table deps) →
        res.dependencies = survivors deps) ∧
      (∀ devDeps, tget data "dev-dependencies" = some (.table devDeps) →
        res.dev_dependencies = survivors devDeps) := by
  obtain ⟨h1, h2⟩ := manifest_ok_inv data res h
  constructor
  · intro deps ht
    rw [tableOut_table data _ deps ht] at h1
    exact (transform_ok_inv deps _ h1).2
  · intro devDeps ht
    rw [tableOut_table data _ devDeps ht] at h2
    exact (transform_ok_inv devDeps _ h2).2

/-- C9 witness: a manifest with entries `b`, `a`, `c` (in that order, `a`
invalid) and a dev entry; the lists keep declaration order, not sorted order. -/
theorem extraction_preserves_declaration_order_witness :
    (∀ deps, tget [("dependencies", Value.table
          [("b", Value.str "1.0"), ("a", Value.str "nope"), ("c", Value.str "2.0")]),
        ("dev-dependencies", Value.table [("serde", Value.str "1.0")])] "dependencies" =
          some (.table deps) →
        ({ dev_dependencies := [{ name := "serde", version := "1.0" }],
           dependencies := [{ name := "b", version := "1.0" },
             { name := "c", version := "2.0" }] } : PackageDependencies).dependencies =
          survivors deps) ∧
      ∀ devDeps, tget [("dependencies", Value.table
          [("b", Value.str "1.0"), ("a", Value.str "nope"), ("c", Value.str "2.0")]),
        ("dev-dependencies", Value.table [("serde", Value.str "1.0")])] "dev-dependencies" =
          some (.table devDeps) →
        ({ dev_dependencies := [{ name := "serde", version := "1.0" }],
           dependencies := [{ name := "b", version := "1.0" },
             { name := "c", version := "2.0" }] } : PackageDependencies).dev_dependencies =
          survivors devDeps :=
  extraction_preserves_declaration_order _ _ (by decide)

theorem count_eq_one_of_nodup_mem (p : String × String) :
    ∀ s : List (String × String), s.Nodup → p ∈ s → s.count p = 1 := by
  intro s
  induction s with
  | nil =>
    intro _ h
    simp at h
  | cons x l ih =>
    intro hnd hm
    rw [List.count_cons]
    rcases List.mem_cons.mp hm with rfl | hm2
    · have hz : l.count p = 0 := by
        rw [List.count_eq_zero]
        exact (List.nodup_cons.mp hnd).1
      simp [hz]
    · have hx : ¬(x = p) := by
        rintro rfl
        exact (List.nodup_cons.mp hnd).1 hm2
      rw [ih (List.nodup_cons.mp hnd).2 hm2]
      simp [hx]

/-- C1: two extraction results that both contain the same (name, version) pair
— from the regular or the development list — merge into an aggregate set
holding exactly one entry for that pair, and re-merging either result leaves
the set unchanged (idempotent, pair-level union across both categories). -/
theorem merge_same_pair_single_entry (a b : ManifestInput) (r1 r2 : PackageDependencies)
    (n v : String)
    (hA : manifest_dependencies a = .ok r1) (hB : manifest_dependencies b = .ok r2)
    (_h1 : ({ name := n, version := v } : Package) ∈ r1.dependencies ∨
      ({ name := n, version := v } : Package) ∈ r1.dev_dependencies)
    (h2 : ({ name := n, version := v } : Package) ∈ r2.dependencies ∨
      ({ name := n, version := v } : Package) ∈ r2.dev_dependencies) :
    ∃ s : CrateSet, runAggregate [a, b] [] = .ok s ∧ s.count (n, v) = 1 ∧
      mergeResult s r1 = s ∧ mergeResult s r2 = s := by
  refine ⟨mergeResult (mergeResult [] r1) r2, runAggregate_pair a b r1 r2 hA hB, ?_, ?_,
    mergeResult_idem _ r2⟩
  · have hnd : (mergeResult (mergeResult [] r1) r2).Nodup :=
      mergeResult_nodup _ _ (mergeResult_nodup _ _ List.nodup_nil)
    have hmem : (n, v) ∈ mergeResult (mergeResult [] r1) r2 := by
      rw [mem_mergeResult]
      rcases h2 with h | h
      · exact Or.inr (Or.inl ⟨_, h, rfl⟩)
      · exact Or.inr (Or.inr ⟨_, h, rfl⟩)
    exact count_eq_one_of_nodup_mem _ _ hnd hmem
  · apply mergeResult_of_mem
    · intro d hd
      rw [mem_mergeResult]
      exact Or.inl ((mem_mergeResult _ _ _).mpr (Or.inr (Or.inl ⟨d, hd, rfl⟩)))
    · intro d hd
      rw [mem_mergeResult]
      exact Or.inl ((mem_mergeResult _ _ _).mpr (Or.inr (Or.inr ⟨d, hd, rfl⟩)))

/-- C1 witness: spec scenario 1, `dependencies.serde = "1.0"` in manifest A and
`dev-dependencies.serde = "1.0"` in manifest B. -/
theorem merge_same_pair_single_entry_witness :
    ∃ s : CrateSet,
      runAggregate [ManifestInput.parsed [("dependencies",
          Value.table [("serde", Value.str "1.0")])],
        ManifestInput.parsed [("dev-dependencies",
          Value.table [("serde", Value.str "1.0")])]] [] = .ok s ∧
        s.count ("serde", "1.0") = 1 ∧
        mergeResult s
          { dev_dependencies := [],
            dependencies := [{ name := "serde", version := "1.0" }] } = s ∧
        mergeResult s
          { dev_dependencies := [{ name := "serde", version := "1.0" }],
            dependencies := [] } = s :=
  merge_same_pair_single_entry _ _
    { dev_dependencies := [], dependencies := [{ name := "serde", version := "1.0" }] }
    { dev_dependencies := [{ name := "serde", version := "1.0" }], dependencies := [] }
    "serde" "1.0" (by decide) (by decide) (Or.inl (by simp)) (Or.inr (by simp))

/-- C6: when one manifest's extraction contains (n, v1) and another's contains
(n, v2) with v1 ≠ v2, the merged aggregate set contains the two pairs as two
distinct entries (each exactly once); merging is total, so no conflict is
possible. -/
theorem merge_conflicting_versions_two_entries (a b : ManifestInput)
    (r1 r2 : PackageDependencies) (n v1 v2 : String)
    (hA : manifest_dependencies a = .ok r1) (hB : manifest_dependencies b = .ok r2)
    (h1 : ({ name := n, version := v1 } : Package) ∈ r1.dependencies ∨
      ({ name := n, version := v1 } : Package) ∈ r1.dev_dependencies)
    (h2 : ({ name := n, version := v2 } : Package) ∈ r2.dependencies ∨
      ({ name := n, version := v2 } : Package) ∈ r2.dev_dependencies)
    (hne : v1 ≠ v2) :
    ∃ s : CrateSet, runAggregate [a, b] [] = .ok s ∧
      (n, v1) ∈ s ∧ (n, v2) ∈ s ∧ (n, v1) ≠ (n, v2) ∧
      s.count (n, v1) = 1 ∧ s.count (n, v2) = 1 := by
  have hnd : (mergeResult (mergeResult [] r1) r2).Nodup :=
    mergeResult_nodup _ _ (mergeResult_nodup _ _ List.nodup_nil)
  have hm1 : (n, v1) ∈ mergeResult (mergeResult [] r1) r2 := by
    rw [mem_mergeResult]
    refine Or.inl ((mem_mergeResult _ _ _).mpr ?_)
    rcases h1 with h | h
    · exact Or.inr (Or.inl ⟨_, h, rfl⟩)
    · exact Or.inr (Or.inr ⟨_, h, rfl⟩)
  have hm2 : (n, v2) ∈ mergeResult (mergeResult [] r1) r2 := by
    rw [mem_mergeResult]
    rcases h2 with h | h
    · exact Or.inr (Or.inl ⟨_, h, rfl⟩)
    · exact Or.inr (Or.inr ⟨_, h, rfl⟩)
  exact ⟨mergeResult (mergeResult [] r1) r2, runAggregate_pair a b r1 r2 hA hB,
    hm1, hm2, by simp [hne], count_eq_one_of_nodup_mem _ _ hnd hm1,
    count_eq_one_of_nodup_mem _ _ hnd hm2⟩

/-- C6 witness: manifest A declares serde 1.0, manifest B declares serde 2.0. -/
theorem merge_conflicting_versions_two_entries_witness :
    ∃ s : CrateSet,
      runAggregate [ManifestInput.parsed [("dependencies",
          Value.table [("serde", Value.str "1.0")])],
        ManifestInput.parsed [("dependencies",
          Value.table [("serde", Value.str "2.0")])]] [] = .ok s ∧
        ("serde", "1.0") ∈ s ∧ ("serde", "2.0") ∈ s ∧
        ("serde", "1.0") ≠ ("serde", "2.0") ∧
        s.count ("serde", "1.0") = 1 ∧ s.count ("serde", "2.0") = 1 :=
  merge_conflicting_versions_two_entries _ _
    { dev_dependencies := [], dependencies := [{ name := "serde", version := "1.0" }] }
    { dev_dependencies := [], dependencies := [{ name := "serde", version := "2.0" }] }
    "serde" "1.0" "2.0" (by decide) (by decide) (Or.inl (by simp)) (Or.inl (by simp))
    (by decide)

theorem transform_rendered (crates : CrateSet)
    (hvalid : ∀ p ∈ crates, versionReqValid p.2 = true) :
    transform_dependencies (crates.map fun p => (p.1, Value.str p.2)) =
      .ok (crates.map fun p => { name := p.1, version := p.2 : Package }) := by
  induction crates with
  | nil => rfl
  | cons hd tl ih =>
    simp only [List.map_cons, transform_dependencies]
    rw [show getVersionStr (Value.str hd.2) = .ok hd.2 from rfl,
      ih fun p hp => hvalid p (List.mem_cons_of_mem hd hp)]
    simp [hvalid hd (List.mem_cons_self hd tl)]

/-- C2: re-extracting the `"dependencies"` table of the document written for an
aggregate set produced by a run yields exactly that set of (name, version)
pairs — nothing is lost to the validity filter, because every aggregated entry
passed it during extraction — and an empty development list. -/
theorem materialize_round_trip (inputs : List ManifestInput) (crates : CrateSet)
    (h : runAggregate inputs [] = .ok crates) :
    ∃ res : PackageDependencies,
      manifest_dependencies (.parsed (make_project_doc crates)) = .ok res ∧
        res.dependencies.map (fun p => (p.name, p.version)) = crates ∧
        res.dev_dependencies = [] := by
  have hvalid : ∀ p ∈ crates, versionReqValid p.2 = true :=
    runAggregate_valid inputs [] (by simp) crates h
  have ht : tget (make_project_doc crates) "dependencies" =
      some (.table (crates.map fun p => (p.1, Value.str p.2))) := rfl
  have hdev : tget (make_project_doc crates) "dev-dependencies" = none := rfl
  refine ⟨{ dev_dependencies := [],
            dependencies := crates.map fun p => { name := p.1, version := p.2 } }, ?_, ?_, rfl⟩
  · simp only [manifest_dependencies]
    rw [tableOut_table _ _ _ ht, transform_rendered crates hvalid]
    simp only [Outcome.bind]
    rw [tableOut_absent _ _ hdev]
  · have hcomp : ((fun p : Package => (p.name, p.version)) ∘
        fun p : String × String => ({ name := p.1, version := p.2 } : Package)) = id := by
      funext p
      rfl
    rw [List.map_map, hcomp, List.map_id]

/-- C2 witness: a run over one manifest declaring serde 1.0. -/
theorem materialize_round_trip_witness :
    ∃ res : PackageDependencies,
      manifest_dependencies (.parsed (make_project_doc [("serde", "1.0")])) = .ok res ∧
        res.dependencies.map (fun p => (p.name, p.version)) = [("serde", "1.0")] ∧
        res.dev_dependencies = [] :=
  materialize_round_trip
    [ManifestInput.parsed [("dependencies", Value.table [("serde", Value.str "1.0")])]]
    [("serde", "1.0")] (by decide)

/-- C7: the materialized manifest document is the fixed `[package]` section —
with the constant placeholder name and version `"0.0.0"` — followed by a
`[dependencies]` section holding exactly one rendered line
`"<name>" = "<version>"` per crate-set entry. -/
theorem synthetic_manifest_shape (crates : CrateSet) :
    (make_project crates).cargoToml =
        "\n            " ++ "[package]" ++ "\n            " ++ "name = \"" ++
          TEMP_PROJ_NAME ++ "\"" ++ "\n            " ++ "version = \"0.0.0\"" ++ "\n" ++
          "\n            " ++ "[dependencies]" ++ "\n            " ++
          String.join (crates.map render_dep) ++ "\n            " ∧
      TEMP_PROJ_NAME = "temp_prefetch_project" ∧
      (crates.map render_dep).length = crates.length ∧
      ∀ p ∈ crates, render_dep p = "\"" ++ p.1 ++ "\" = \"" ++ p.2 ++ "\"\n" :=
  ⟨rfl, rfl, by simp, fun p _ => rfl⟩

/-- C8 counterexample: extraction failures are not surfaced as catchable
errors; at a concrete unreadable file and at unparseable content the result
is a process-aborting panic, never an `Err` value. -/
theorem extraction_error_not_catchable :
    manifest_dependencies (.readError "No such file or directory (os error 2)") =
        .panic "No such file or directory (os error 2)" ∧
      (manifest_dependencies (.readError "No such file or directory (os error 2)")).isErr
        = false ∧
      manifest_dependencies .parseError = .panic "TOML parse error" ∧
      (manifest_dependencies .parseError).isErr = false :=
  ⟨rfl, rfl, rfl, rfl⟩

/-- C8 (amended): extraction aborts with a panic — not a catchable error —
when the file cannot be read or its content is not well-formed TOML, and such
a failure on any supplied manifest aborts the whole run before any output is
produced. -/
theorem extraction_failure_aborts_run (inputs : List ManifestInput) (input : ManifestInput)
    (hin : input ∈ inputs)
    (hfail : (∃ msg, input = .readError msg) ∨ input = .parseError) :
    (∃ m, manifest_dependencies input = .panic m) ∧
      (manifest_dependencies input).isErr = false ∧
      ∃ m, run inputs = .panic m := by
  have hp : ∃ m, manifest_dependencies input = .panic m := by
    rcases hfail with ⟨msg, rfl⟩ | rfl
    · exact ⟨msg, rfl⟩
    · exact ⟨"TOML parse error", rfl⟩
  refine ⟨hp, ?_, ?_⟩
  · obtain ⟨m, hm⟩ := hp
    rw [hm]
    rfl
  · obtain ⟨m, hm⟩ := runAggregate_panic_of_mem inputs input hp [] hin
    exact ⟨m, by unfold run; rw [hm]⟩

/-- C8 witness: a single unreadable manifest. -/
theorem extraction_failure_aborts_run_witness :
    (∃ m, manifest_dependencies (.readError "boom") = .panic m) ∧
      (manifest_dependencies (.readError "boom")).isErr = false ∧
      ∃ m, run [ManifestInput.readError "boom"] = .panic m :=
  extraction_failure_aborts_run [ManifestInput.readError "boom"] (.readError "boom")
    (by simp) (Or.inl ⟨"boom", rfl⟩)

end Prefetch
